import Mathlib

set_option maxHeartbeats 1000000

namespace StoryboardPipeline

/-!
Shallow embedding of the storyboard indexing and retrieval pipeline:

* `src/frontend/src/Projects/ai-storyboard-converter/convert_storyboards.py`
  (document extraction, generative JSON conversion, batch driver);
* `src/backend/backend/migrate_embeddings.py` (re-embedding / reindexing job);
* `src/backend_backup_v2/test_vector_search.py` (similarity search SQL);
* `src/backend_backup_v2/migrate_embedding.py` (vector column migration).

External collaborators (the `json.loads` parser, the embedding service, the
generative service, the file system) are modelled as explicit function
parameters; the SQL statements are embedded with standard PostgreSQL/pgvector
semantics (ascending `ORDER BY` places NULL keys last, `LIMIT k` truncates,
comparing vectors of unequal dimension raises an error).
-/

/-! ### Document Extractor (`extract_text_from_pptx`) -/

/-- A shape on a slide: `some t` when the shape has a `text` attribute with
content `t`, `none` for shapes without a text attribute. -/
abbrev Shape := Option String

/-- A slide is its ordered list of shapes. -/
abbrev Slide := List Shape

/-- Embedding of `extract_text_from_pptx` from `convert_storyboards.py`:
iterate slides in order, shapes in order, and for every shape that has a
`text` attribute append that text followed by a newline to the accumulator. -/
def extract_text_from_pptx (slides : List Slide) : String :=
  slides.foldl
    (fun acc slide =>
      slide.foldl
        (fun acc2 shape =>
          match shape with
          | some t => acc2 ++ t ++ "\n"
          | none => acc2)
        acc)
    ""

/-- The spec-shaped form of slide-deck extraction: the concatenation, in slide
order then shape order, of every textual shape's content, each terminated by a
line break. -/
def pptxSpecText (slides : List Slide) : String :=
  String.join (((slides.map (fun sl => sl.filterMap id)).flatten).map (fun t => t ++ "\n"))

/-! ### Structured Converter (`convert_to_json_with_gemini`) -/

/-- The character set of the `strip` call in `convert_to_json_with_gemini`:
backtick, space, newline. -/
def fenceChars : List Char := "` \n".toList

/-- Python's `str.strip(chars)`: remove every leading and every trailing
character that belongs to `cs`. -/
def pyStrip (cs : List Char) (s : List Char) : List Char :=
  ((s.dropWhile (fun c => c ∈ cs)).reverse.dropWhile (fun c => c ∈ cs)).reverse

/-- Embedding of the parse logic of `convert_to_json_with_gemini` from
`convert_storyboards.py`: try `json.loads` on the raw reply; on failure, strip
backticks/space/newline from both ends and try once more.  The external
`json.loads` is modelled by the function `parse` (returning `some` exactly on
the strings it accepts). -/
def convert_to_json_with_gemini (parse : List Char → Option α) (reply : List Char) :
    Option α :=
  match parse reply with
  | some j => some j
  | none => parse (pyStrip fenceChars reply)

/-- Number of `json.loads` attempts `convert_to_json_with_gemini` makes on a
reply: one when the direct parse succeeds, two otherwise. -/
def geminiParseAttempts (parse : List Char → Option α) (reply : List Char) : Nat :=
  match parse reply with
  | some _ => 1
  | none => 2

/-! ### Batch driver (`process_folder`) -/

/-- Python's `str.endswith`, on code points. -/
def strEndsWith (suffix s : String) : Bool :=
  suffix.toList.isSuffixOf s.toList

/-- Index (from the front) of the last '.' in `cs`, if any. -/
def lastDotIdx (cs : List Char) : Option Nat :=
  (cs.reverse.indexOf? '.').map (fun k => cs.length - 1 - k)

/-- `os.path.splitext(f)[0]` for a bare file name: everything before the last
dot, except that a name whose characters before that dot are all dots (a
leading-dot file such as ".bashrc") is not split. -/
def splitextBase (f : String) : String :=
  match lastDotIdx f.toList with
  | none => f
  | some i =>
    if (f.toList.take i).any (fun c => c ≠ '.') then String.mk (f.toList.take i) else f

/-- The extraction stage of `process_folder` on one file name: `none` when the
extension is unrecognized (the file is skipped), otherwise the result of the
matching extractor.  An extractor exception is NOT caught by `process_folder`
(its `try` block starts only after extraction). -/
def extractStage (extractPdf extractPptx readTxt : String → Except ε String)
    (filename : String) : Option (Except ε String) :=
  if strEndsWith ".pdf" filename then some (extractPdf filename)
  else if strEndsWith ".pptx" filename then some (extractPptx filename)
  else if strEndsWith ".txt" filename then some (readTxt filename)
  else none

/-- Output path of a successfully converted file: the output folder joined
with the input file's base name plus ".json". -/
def outPath (outputFolder filename : String) : String :=
  outputFolder ++ "/" ++ splitextBase filename ++ ".json"

/-- Embedding of `process_folder` from `convert_storyboards.py`.  `convert`
models `convert_to_json_with_gemini` end to end (generative call plus JSON
parse); the extractors model `extract_text_from_pdf` / `extract_text_from_pptx`
/ reading a text file.  Returns the (path, data) writes performed, in file
order, paired with `some e` when an uncaught extraction exception `e` aborted
the batch; writes made before the abort are kept, files after it are never
reached. -/
def process_folder (extractPdf extractPptx readTxt : String → Except ε String)
    (convert : String → Except ε α) (outputFolder : String) :
    List String → List (String × α) × Option ε
  | [] => ([], none)
  | f :: fs =>
    match extractStage extractPdf extractPptx readTxt f with
    | none => process_folder extractPdf extractPptx readTxt convert outputFolder fs
    | some (Except.error e) => ([], some e)
    | some (Except.ok text) =>
      match convert text with
      | Except.error _ => process_folder extractPdf extractPptx readTxt convert outputFolder fs
      | Except.ok j =>
        let rest := process_folder extractPdf extractPptx readTxt convert outputFolder fs
        ((outPath outputFolder f, j) :: rest.1, rest.2)

/-- The outputs `process_folder` produces when no extraction exception occurs:
one (path, data) pair for every recognized file whose conversion succeeds. -/
def expectedOutputs (extractPdf extractPptx readTxt : String → Except ε String)
    (convert : String → Except ε α) (outputFolder : String)
    (files : List String) : List (String × α) :=
  files.filterMap (fun f =>
    match extractStage extractPdf extractPptx readTxt f with
    | some (Except.ok text) =>
      match convert text with
      | Except.ok j => some (outPath outputFolder f, j)
      | Except.error _ => none
    | _ => none)

/-- The file system after performing the writes `outs` in order, starting
empty: each write opens its path with mode "w", so a later write to the same
path overwrites an earlier one. -/
def writeAll (outs : List (String × α)) : String → Option α :=
  outs.foldl (fun fs pj => fun q => if q = pj.1 then some pj.2 else fs q)
    (fun _ => none)

/-! ### Storyboard Store: similarity search (`test_vector_search.py`) -/

/-- A row of the `storyboards` table as the search SQL reads it: `id`,
`content`, and the nullable pgvector `embedding` column.  Rows are listed in
insertion order. -/
structure StoredRow where
  id : Nat
  content : String
  embedding : Option (List ℚ)
deriving DecidableEq

/-- pgvector accepts `embedding <=> q` without raising exactly when the stored
vector (if present) has the query's dimensionality; a NULL embedding yields a
NULL distance instead of an error. -/
def dimCompatible (q : List ℚ) (r : StoredRow) : Bool :=
  match r.embedding with
  | some v => v.length == q.length
  | none => true

/-- A row both present and of the query's dimensionality (the spec's
"searchable" records). -/
def searchable (q : List ℚ) (r : StoredRow) : Bool :=
  match r.embedding with
  | some v => v.length == q.length
  | none => false

/-- Sort key of `ORDER BY embedding <=> %s::vector`: the distance operator's
value for a present embedding, `⊤` for NULL (PostgreSQL places NULL keys last
in ascending order).  `dist` models pgvector's cosine-distance operator
`<=>`; the ordering semantics of the SQL do not depend on its values. -/
def orderKey (dist : List ℚ → List ℚ → ℚ) (q : List ℚ) (r : StoredRow) : WithTop ℚ :=
  match r.embedding with
  | some v => (dist v q : WithTop ℚ)
  | none => ⊤

/-- One result row of the SQL: `SELECT id, content, 1 - (embedding <=> q) AS
similarity` — the score is NULL exactly when the embedding is. -/
def rowResult (dist : List ℚ → List ℚ → ℚ) (q : List ℚ) (r : StoredRow) :
    Nat × String × Option ℚ :=
  (r.id, r.content, r.embedding.map (fun v => 1 - dist v q))

/-- The row order `ORDER BY embedding <=> %s::vector` ranks by: ascending
distance, NULL keys last. -/
def searchLE (dist : List ℚ → List ℚ → ℚ) (q : List ℚ) (a b : StoredRow) : Prop :=
  orderKey dist q a ≤ orderKey dist q b

instance (dist : List ℚ → List ℚ → ℚ) (q : List ℚ) : DecidableRel (searchLE dist q) :=
  fun a b => inferInstanceAs (Decidable (orderKey dist q a ≤ orderKey dist q b))

/-- Embedding of the search SQL of `test_vector_search.py`: order all rows by
`embedding <=> q` ascending (NULLs last), truncate to `k` (`LIMIT %s`), and
report `1 - (embedding <=> q)` as the similarity score.  Comparing a stored
vector of a different dimensionality with the query raises an error. -/
def similaritySearch (dist : List ℚ → List ℚ → ℚ) (q : List ℚ) (k : Nat)
    (rows : List StoredRow) : Except String (List (Nat × String × Option ℚ)) :=
  if rows.all (dimCompatible q) then
    Except.ok (((rows.insertionSort (searchLE dist q)).take k).map (rowResult dist q))
  else Except.error "different vector dimensions"

/-! ### Reindexing Job (`migrate_embeddings.py`) -/

/-- A row of the `storyboards` table as the reindex job reads it: `id`, the
`moduleName` field the job extracts from the JSON `content` (the only part of
the content it uses), and the nullable embedding column. -/
structure DbRow where
  id : Nat
  moduleName : String
  embedding : Option (List ℚ)
deriving DecidableEq

/-- Embedding of `create_embedding` from `migrate_embeddings.py`: it forwards
its input text to the embedding service unconditionally — there is no
empty-input or whitespace check.  Returns the vector together with the list of
texts sent to the service. -/
def create_embedding (service : String → List ℚ) (text : String) :
    List ℚ × List String :=
  (service text, [text])

/-- The module-level reindex loop of `migrate_embeddings.py`, inside its
single transaction: process rows in order; skip a row whose `moduleName` is
empty (Python falsiness of `text_to_embed`); otherwise call the embedding
service (`embed`) and record the per-row `UPDATE ... SET embedding = %s`.
Returns the table as updated inside the transaction (or the uncaught
exception) together with the texts sent to the embedding service. -/
def reindexLoop (embed : String → Except String (List ℚ)) :
    List DbRow → Except String (List DbRow) × List String
  | [] => (Except.ok [], [])
  | r :: rs =>
    if r.moduleName = "" then
      let rest := reindexLoop embed rs
      (rest.1.map (fun rows => r :: rows), rest.2)
    else
      match embed r.moduleName with
      | Except.error e => (Except.error e, [r.moduleName])
      | Except.ok v =>
        let rest := reindexLoop embed rs
        (rest.1.map (fun rows => { r with embedding := some v } :: rows),
         r.moduleName :: rest.2)

/-- The observable final table of one reindex run: `conn.commit()` runs only
after the whole loop, and an exception leaving the `with psycopg.connect(...)`
block makes psycopg roll the transaction back — so on any embedding failure
the table keeps exactly its prior rows. -/
def reindexRun (embed : String → Except String (List ℚ)) (rows : List DbRow) :
    List DbRow :=
  match (reindexLoop embed rows).1 with
  | Except.ok updated => updated
  | Except.error _ => rows

/-- The texts a reindex run sends to the embedding service. -/
def reindexCalls (embed : String → Except String (List ℚ)) (rows : List DbRow) :
    List String :=
  (reindexLoop embed rows).2

/-- The per-row update a fully successful run applies. -/
def reindexUpdate (embed : String → Except String (List ℚ)) (r : DbRow) : DbRow :=
  if r.moduleName = "" then r
  else
    match embed r.moduleName with
    | Except.ok v => { r with embedding := some v }
    | Except.error _ => r

/-! ### Storyboard Store: `upsertEmbedding` and the scheme version (spec §3) -/

/-- A stored row carrying, besides the code's columns, the spec's
`embeddingSchemeVersion` field.  Modelled from the spec: §3 requires every
stored vector to be paired with the scheme version that produced it, but the
`storyboards` table of the code has no such column (`migrate_embedding.py`
only types `embedding` as `vector(1536)`), so the field is adjoined here in
order to state the claim; the code's UPDATE cannot touch it. -/
structure VersionedRow where
  id : Nat
  embedding : Option (List ℚ)
  embeddingSchemeVersion : Option Nat
deriving DecidableEq

/-- The dimensionality of each embedding scheme version appearing in the
sources: version 1 is the 1536-dimensional scheme (`migrate_embedding.py`
types the column `vector(1536)`), version 2 the 3072-dimensional
`text-embedding-3-large` scheme (`migrate_embeddings.py`). -/
def dimOfScheme : Nat → Nat
  | 1 => 1536
  | 2 => 3072
  | _ => 0

/-- Embedding of the code's update, `UPDATE storyboards SET embedding = %s
WHERE id = %s;` (`migrate_embeddings.py`): it replaces only the `embedding`
column of the matching rows; every other field — in particular any scheme
version — is left as it was. -/
def upsertEmbedding (rows : List VersionedRow) (i : Nat) (v : List ℚ) :
    List VersionedRow :=
  rows.map (fun r => if r.id = i then { r with embedding := some v } else r)

/-- Modelled from the spec: the store operation of §4.4, `upsertEmbedding(id,
vector, schemeVersion)`, which "atomically replaces `embedding` and
`embeddingSchemeVersion`" together. -/
def upsertEmbeddingSpec (rows : List VersionedRow) (i : Nat) (v : List ℚ)
    (ver : Nat) : List VersionedRow :=
  rows.map (fun r =>
    if r.id = i then
      { r with embedding := some v, embeddingSchemeVersion := some ver }
    else r)

end StoryboardPipeline

namespace StoryboardPipeline

/-! ### Proofs -/

lemma foldl_string_append (l : List String) (a : String) :
    List.foldl (fun r s => r ++ s) a l = a ++ String.join l := by
  induction l generalizing a with
  | nil => simp [String.join]
  | cons x xs ih =>
    rw [List.foldl_cons, ih (a ++ x)]
    have hx : String.join (x :: xs) = x ++ String.join xs := by
      simp only [String.join, List.foldl_cons]
      rw [ih ("" ++ x)]
      simp [String.join]
    rw [hx, String.append_assoc]

lemma string_join_cons (x : String) (xs : List String) :
    String.join (x :: xs) = x ++ String.join xs := by
  simp only [String.join, List.foldl_cons]
  rw [foldl_string_append xs ("" ++ x)]
  simp [String.join]

lemma string_join_append (l1 l2 : List String) :
    String.join (l1 ++ l2) = String.join l1 ++ String.join l2 := by
  induction l1 with
  | nil => simp [String.join]
  | cons x xs ih =>
    rw [List.cons_append, string_join_cons, ih, string_join_cons, String.append_assoc]

lemma foldl_shape_append (sl : Slide) (acc : String) :
    sl.foldl
      (fun acc2 shape =>
        match shape with
        | some t => acc2 ++ t ++ "\n"
        | none => acc2)
      acc = acc ++ String.join ((sl.filterMap id).map (fun t => t ++ "\n")) := by
  induction sl generalizing acc with
  | nil => simp [String.join]
  | cons s rest ih =>
    cases s with
    | none => simpa [List.filterMap] using ih acc
    | some t =>
      simp only [List.foldl_cons, List.filterMap_cons, id_eq, List.map_cons]
      rw [ih (acc ++ t ++ "\n"), string_join_cons]
      simp [String.append_assoc]

lemma extract_eq_spec (slides : List Slide) :
    extract_text_from_pptx slides = pptxSpecText slides := by
  suffices h : ∀ acc, slides.foldl
      (fun acc slide =>
        slide.foldl
          (fun acc2 shape =>
            match shape with
            | some t => acc2 ++ t ++ "\n"
            | none => acc2)
          acc)
      acc = acc ++ pptxSpecText slides by
    simpa using h ""
  induction slides with
  | nil => intro acc; simp [pptxSpecText, String.join]
  | cons sl rest ih =>
    intro acc
    simp only [List.foldl_cons]
    rw [foldl_shape_append, ih]
    simp only [pptxSpecText, List.map_cons, List.flatten_cons, List.map_append]
    rw [string_join_append, String.append_assoc]

/-- C9: for every slide-deck input, the extracted text is the concatenation,
in slide order then shape order, of every textual shape's content, each
shape's text terminated by a line break; in particular a deck with three text
shapes on one slide yields the three texts each on its own line, in shape
order. -/
theorem C9_pptx_extraction_order :
    (∀ slides : List Slide, extract_text_from_pptx slides = pptxSpecText slides) ∧
    (∀ a b c : String,
      extract_text_from_pptx [[some a, some b, some c]] =
        a ++ "\n" ++ (b ++ "\n" ++ (c ++ "\n"))) := by
  refine ⟨extract_eq_spec, fun a b c => ?_⟩
  simp [extract_text_from_pptx, String.append_assoc]

lemma dropWhile_append_of_all {p : Char → Bool} {pre rest : List Char}
    (h : pre.all p) : (pre ++ rest).dropWhile p = rest.dropWhile p := by
  induction pre with
  | nil => rfl
  | cons a as ih =>
    simp only [List.all_cons, Bool.and_eq_true] at h
    simpa [List.dropWhile, h.1] using ih h.2

lemma dropWhile_eq_nil_of_all {p : Char → Bool} {l : List Char} (h : l.all p) :
    l.dropWhile p = [] := by
  induction l with
  | nil => rfl
  | cons a as ih =>
    simp only [List.all_cons, Bool.and_eq_true] at h
    simp [List.dropWhile, h.1, ih h.2]

lemma dropWhile_append_of_not_all {p : Char → Bool} {s : List Char} (post : List Char)
    (h : ¬ s.all p = true) : (s ++ post).dropWhile p = s.dropWhile p ++ post := by
  induction s with
  | nil => exact absurd rfl h
  | cons a as ih =>
    by_cases ha : p a
    · have has : ¬ as.all p = true := fun hall => h (by simp [List.all_cons, ha, hall])
      simp [List.dropWhile, ha, ih has]
    · simp [List.dropWhile, ha]

lemma pyStrip_fenced (cs pre post s : List Char)
    (hpre : pre.all (fun c => c ∈ cs)) (hpost : post.all (fun c => c ∈ cs)) :
    pyStrip cs (pre ++ s ++ post) = pyStrip cs s := by
  unfold pyStrip
  rw [List.append_assoc, dropWhile_append_of_all hpre]
  by_cases hs : s.all (fun c => c ∈ cs) = true
  · have h1 : (s ++ post).all (fun c => c ∈ cs) = true := by
      simp [List.all_append, hs, hpost]
    rw [dropWhile_eq_nil_of_all h1, dropWhile_eq_nil_of_all hs]
  · rw [dropWhile_append_of_not_all post hs, List.reverse_append,
      dropWhile_append_of_all (by simpa using hpost)]

/-- C6: the converter first attempts a direct JSON parse (a single attempt
when that succeeds); if it fails it strips leading/trailing backticks and
surrounding whitespace and retries the parse exactly once, so any reply that
is valid JSON wrapped in backtick fencing is parsed by that single retry
(hypotheses state the two facts about the external `json.loads`: the fenced
reply does not parse directly, and the stripped core does). -/
theorem C6_fence_strip_single_retry {α : Type} (parse : List Char → Option α)
    (reply pre post core : List Char) (j j0 : α) :
    (parse reply = some j0 →
      convert_to_json_with_gemini parse reply = some j0 ∧
      geminiParseAttempts parse reply = 1) ∧
    (pre.all (fun c => c ∈ fenceChars) → post.all (fun c => c ∈ fenceChars) →
      parse (pre ++ core ++ post) = none →
      parse (pyStrip fenceChars core) = some j →
      convert_to_json_with_gemini parse (pre ++ core ++ post) = some j ∧
      geminiParseAttempts parse (pre ++ core ++ post) = 2) := by
  constructor
  · intro h
    simp [convert_to_json_with_gemini, geminiParseAttempts, h]
  · intro hpre hpost hfail hcore
    have hfail2 : parse (pre ++ (core ++ post)) = none := by
      rw [← List.append_assoc]; exact hfail
    have hstrip : pyStrip fenceChars (pre ++ (core ++ post)) = pyStrip fenceChars core := by
      rw [← List.append_assoc]; exact pyStrip_fenced fenceChars pre post core hpre hpost
    simp [convert_to_json_with_gemini, geminiParseAttempts, hfail2, hstrip, hcore]

/-- Witness for C6: the concrete reply "```42```" with a parser accepting
exactly the string "42" parses to 42 after the single fence-stripping retry. -/
theorem C6_fence_strip_single_retry_witness :
    convert_to_json_with_gemini
      (fun s => if s = "42".toList then some (42 : Nat) else none)
      ("```".toList ++ "42".toList ++ "```".toList) = some 42 ∧
    geminiParseAttempts
      (fun s => if s = "42".toList then some (42 : Nat) else none)
      ("```".toList ++ "42".toList ++ "```".toList) = 2 :=
  (C6_fence_strip_single_retry
      (fun s => if s = "42".toList then some (42 : Nat) else none)
      [] "```".toList "```".toList "42".toList 42 42).2
    (by decide) (by decide) (by decide) (by decide)

/-- C3 counterexample: a batch of two files where the first file's PDF
extraction raises.  `process_folder` aborts with the extraction exception and
produces no output at all, although the very same second file converts and is
written when the bad file is absent — extraction failures are NOT caught
per-file, contrary to the claim. -/
theorem C3_counterexample_extraction_aborts_batch :
    process_folder (ε := String) (α := Nat)
      (fun _ => Except.error "corrupt pdf") (fun _ => Except.ok "t")
      (fun _ => Except.ok "t") (fun _ => Except.ok 1) "out"
      ["bad.pdf", "good.txt"] = ([], some "corrupt pdf") ∧
    process_folder (ε := String) (α := Nat)
      (fun _ => Except.error "corrupt pdf") (fun _ => Except.ok "t")
      (fun _ => Except.ok "t") (fun _ => Except.ok 1) "out"
      ["good.txt"] = ([("out/good.json", 1)], none) := by
  decide

/-- C3 amended: only failures in the conversion/writing stage are caught
per-file and skipped; provided no file's extraction raises, a conversion
failure on any file never aborts the batch — every remaining file is still
processed and the batch ends without an exception. -/
theorem C3_amended_conversion_failures_isolated
    (extractPdf extractPptx readTxt : String → Except ε String)
    (convert : String → Except ε α) (outputFolder : String) (files : List String)
    (hok : ∀ f ∈ files, ∀ e,
      extractStage extractPdf extractPptx readTxt f ≠ some (Except.error e)) :
    process_folder extractPdf extractPptx readTxt convert outputFolder files
      = (expectedOutputs extractPdf extractPptx readTxt convert outputFolder files,
         none) := by
  induction files with
  | nil => rfl
  | cons f fs ih =>
    have hf := hok f (List.mem_cons_self f fs)
    have hfs : ∀ g ∈ fs, ∀ e,
        extractStage extractPdf extractPptx readTxt g ≠ some (Except.error e) :=
      fun g hg => hok g (List.mem_cons_of_mem f hg)
    cases hx : extractStage extractPdf extractPptx readTxt f with
    | none =>
      simp only [process_folder, hx]
      rw [ih hfs]
      simp [expectedOutputs, List.filterMap_cons, hx]
    | some r =>
      cases r with
      | error e => exact absurd hx (hf e)
      | ok text =>
        cases hc : convert text with
        | error e =>
          simp only [process_folder, hx, hc]
          rw [ih hfs]
          simp [expectedOutputs, List.filterMap_cons, hx, hc]
        | ok j =>
          simp only [process_folder, hx, hc]
          rw [ih hfs]
          simp [expectedOutputs, List.filterMap_cons, hx, hc]

/-- Witness for C3 amended: a two-file batch whose first file's conversion
fails still writes the second file's output and ends without an exception. -/
theorem C3_amended_conversion_failures_isolated_witness :
    process_folder (ε := String) (α := Nat)
      (fun _ => Except.ok "P") (fun _ => Except.ok "Q") (fun _ => Except.ok "T")
      (fun t => if t = "P" then Except.error "not json" else Except.ok 7) "out"
      ["bad.pdf", "good.txt"]
      = (expectedOutputs (fun _ => Except.ok "P") (fun _ => Except.ok "Q")
          (fun _ => Except.ok "T")
          (fun t => if t = "P" then Except.error "not json" else Except.ok 7) "out"
          ["bad.pdf", "good.txt"], none) ∧
    expectedOutputs (ε := String) (fun _ => Except.ok "P") (fun _ => Except.ok "Q")
      (fun _ => Except.ok "T")
      (fun t => if t = "P" then Except.error "not json" else Except.ok 7) "out"
      ["bad.pdf", "good.txt"] = [("out/good.json", 7)] :=
  ⟨C3_amended_conversion_failures_isolated _ _ _ _ _ _
    (by
      intro f hf e h
      have hf2 : f = "bad.pdf" ∨ f = "good.txt" := by simpa using hf
      rcases hf2 with rfl | rfl
      · rw [show extractStage (ε := String) (fun _ => Except.ok "P")
            (fun _ => Except.ok "Q") (fun _ => Except.ok "T") "bad.pdf"
            = some (Except.ok "P") from rfl] at h
        exact Except.noConfusion (Option.some.inj h)
      · rw [show extractStage (ε := String) (fun _ => Except.ok "P")
            (fun _ => Except.ok "Q") (fun _ => Except.ok "T") "good.txt"
            = some (Except.ok "T") from rfl] at h
        exact Except.noConfusion (Option.some.inj h)),
   by decide⟩

lemma writeAll_foldl (g : String → Option α) (outs : List (String × α)) (q : String) :
    outs.foldl (fun fs pj => fun r => if r = pj.1 then some pj.2 else fs r) g q
      = match outs.reverse.find? (fun o => decide (o.1 = q)) with
        | some o => some o.2
        | none => g q := by
  induction outs generalizing g with
  | nil => rfl
  | cons o os ih =>
    rw [List.foldl_cons, ih, List.reverse_cons, List.find?_append]
    cases hfind : os.reverse.find? (fun o => decide (o.1 = q)) with
    | some o2 => simp [hfind, Option.orElse]
    | none =>
      by_cases hq : o.1 = q
      · simp [hfind, Option.orElse, List.find?, hq]
      · simp [hfind, Option.orElse, List.find?, hq, Ne.symm hq]

/-- C10: every output the batch driver writes goes to the output folder under
the input file's base name with extension ".json"; and since each write opens
its path with mode "w", the file system after a batch holds, at every path,
the value of the last write to that path — so two inputs sharing a base name
map to one path and the later-processed one overwrites the earlier. -/
theorem C10_base_name_output_and_overwrite
    (extractPdf extractPptx readTxt : String → Except ε String)
    (convert : String → Except ε α) (outputFolder : String) (files : List String) :
    (∀ p j, (p, j) ∈ (process_folder extractPdf extractPptx readTxt convert
        outputFolder files).1 →
      ∃ f ∈ files, p = outPath outputFolder f) ∧
    (∀ (outs : List (String × α)) (q : String),
      writeAll outs q
        = match outs.reverse.find? (fun o => decide (o.1 = q)) with
          | some o => some o.2
          | none => none) := by
  constructor
  · induction files with
    | nil => intro p j h; exact absurd h (by simp [process_folder])
    | cons f fs ih =>
      intro p j h
      cases hx : extractStage extractPdf extractPptx readTxt f with
      | none =>
        rw [process_folder, hx] at h
        obtain ⟨g, hg, hp⟩ := ih p j h
        exact ⟨g, List.mem_cons_of_mem f hg, hp⟩
      | some r =>
        cases r with
        | error e =>
          rw [process_folder, hx] at h
          exact absurd h (by simp)
        | ok text =>
          cases hc : convert text with
          | error e =>
            rw [process_folder, hx] at h
            simp only [hc] at h
            obtain ⟨g, hg, hp⟩ := ih p j h
            exact ⟨g, List.mem_cons_of_mem f hg, hp⟩
          | ok jj =>
            rw [process_folder, hx] at h
            simp only [hc, List.mem_cons] at h
            rcases h with h | h
            · exact ⟨f, List.mem_cons_self f fs, congrArg Prod.fst h⟩
            · obtain ⟨g, hg, hp⟩ := ih p j h
              exact ⟨g, List.mem_cons_of_mem f hg, hp⟩
  · intro outs q
    exact writeAll_foldl _ outs q

/-- Witness for C10: in a batch containing "a.pdf" then "a.txt", both outputs
go to path "out/a.json" (each named by some input's base name), and the file
system after the two writes holds the later file's data at that path. -/
theorem C10_base_name_output_and_overwrite_witness :
    (∃ f ∈ (["a.pdf", "a.txt"] : List String), "out/a.json" = outPath "out" f) ∧
    writeAll [("out/a.json", (1 : Nat)), ("out/a.json", 2)] "out/a.json" = some 2 := by
  have h := C10_base_name_output_and_overwrite (ε := String) (α := Nat)
    (fun _ => Except.ok "P") (fun _ => Except.ok "Q") (fun _ => Except.ok "T")
    (fun t => Except.ok (if t = "P" then 1 else 2)) "out" ["a.pdf", "a.txt"]
  constructor
  · exact h.1 "out/a.json" 1 (by decide)
  · rw [h.2 [("out/a.json", (1 : Nat)), ("out/a.json", 2)] "out/a.json"]
    decide

instance (dist : List ℚ → List ℚ → ℚ) (q : List ℚ) :
    IsTotal StoredRow (searchLE dist q) :=
  ⟨fun a b => le_total (orderKey dist q a) (orderKey dist q b)⟩

instance (dist : List ℚ → List ℚ → ℚ) (q : List ℚ) :
    IsTrans StoredRow (searchLE dist q) :=
  ⟨fun _ _ _ hab hbc => le_trans hab hbc⟩

lemma mem_rows_of_mem_sorted_take {dist : List ℚ → List ℚ → ℚ} {q : List ℚ}
    {k : Nat} {rows : List StoredRow} {r : StoredRow}
    (h : r ∈ (rows.insertionSort (searchLE dist q)).take k) : r ∈ rows :=
  (List.perm_insertionSort (searchLE dist q) rows).subset
    (List.take_subset k _ h)

lemma searchable_embedding {q : List ℚ} {r : StoredRow}
    (h : searchable q r = true) :
    ∃ v, r.embedding = some v ∧ v.length = q.length := by
  cases hre : r.embedding with
  | none => rw [searchable, hre] at h; exact absurd h (by simp)
  | some v =>
    rw [searchable, hre] at h
    exact ⟨v, rfl, by simpa using h⟩

/-- C4: under a store whose records all carry an embedding of the query's
dimensionality, `similaritySearch(q, k)` succeeds and returns the `min k n`
records closest to `q` under the distance operator (every returned record's
key is at most every omitted record's key), ordered ascending by distance —
hence descending by score — with each result's score equal to `1` minus the
distance between `q` and that record's stored embedding, and adjacent scores
non-increasing. -/
theorem C4_search_top_k_descending (dist : List ℚ → List ℚ → ℚ) (q : List ℚ)
    (k : Nat) (rows : List StoredRow) (hk : 0 < k)
    (hall : rows.all (searchable q) = true) :
    ∃ chosen rest : List StoredRow,
      rows.Perm (chosen ++ rest) ∧
      similaritySearch dist q k rows = Except.ok (chosen.map (rowResult dist q)) ∧
      chosen.length = min k rows.length ∧
      (∀ r ∈ chosen, ∃ v, r.embedding = some v ∧
        (rowResult dist q r).2.2 = some (1 - dist v q)) ∧
      (∀ c ∈ chosen, ∀ r ∈ rest, orderKey dist q c ≤ orderKey dist q r) ∧
      List.Chain' (fun a b => ∀ x y, a.2.2 = some x → b.2.2 = some y → y ≤ x)
        (chosen.map (rowResult dist q)) := by
  have hallmem : ∀ r ∈ rows, searchable q r = true := List.all_eq_true.mp hall
  have hdim : rows.all (dimCompatible q) = true := by
    rw [List.all_eq_true]
    intro r hr
    obtain ⟨v, hv, hlen⟩ := searchable_embedding (hallmem r hr)
    rw [dimCompatible, hv]
    simpa using hlen
  set sorted := rows.insertionSort (searchLE dist q) with hsortdef
  refine ⟨sorted.take k, sorted.drop k, ?_, ?_, ?_, ?_, ?_, ?_⟩
  · rw [List.take_append_drop]
    exact (List.perm_insertionSort (searchLE dist q) rows).symm
  · rw [similaritySearch, if_pos hdim]
  · rw [List.length_take, (List.perm_insertionSort (searchLE dist q) rows).length_eq]
  · intro r hr
    obtain ⟨v, hv, _⟩ := searchable_embedding (hallmem r (mem_rows_of_mem_sorted_take hr))
    exact ⟨v, hv, by rw [rowResult, hv]; rfl⟩
  · have hsorted : List.Sorted (searchLE dist q) sorted :=
      List.sorted_insertionSort (searchLE dist q) rows
    rw [List.Sorted, ← List.take_append_drop k sorted, List.pairwise_append] at hsorted
    exact hsorted.2.2
  · have hsorted : List.Sorted (searchLE dist q) sorted :=
      List.sorted_insertionSort (searchLE dist q) rows
    have htake : List.Pairwise (searchLE dist q) (sorted.take k) :=
      List.Pairwise.sublist (List.take_sublist k sorted) hsorted
    have hpw : List.Pairwise
        (fun a b : StoredRow => ∀ x y,
          (rowResult dist q a).2.2 = some x → (rowResult dist q b).2.2 = some y →
          y ≤ x) (sorted.take k) := by
      refine htake.imp_of_mem ?_
      intro a b ha hb hab x y hx hy
      obtain ⟨va, hva, hla⟩ :=
        searchable_embedding (hallmem a (mem_rows_of_mem_sorted_take ha))
      obtain ⟨vb, hvb, hlb⟩ :=
        searchable_embedding (hallmem b (mem_rows_of_mem_sorted_take hb))
      rw [rowResult, hva] at hx
      rw [rowResult, hvb] at hy
      simp only [Option.map_some] at hx hy
      obtain rfl : x = 1 - dist va q := (Option.some.inj hx).symm
      obtain rfl : y = 1 - dist vb q := (Option.some.inj hy).symm
      have hk2 : (dist va q : WithTop ℚ) ≤ (dist vb q : WithTop ℚ) := by
        have := hab
        rw [searchLE, orderKey, orderKey, hva, hvb] at this
        exact this
      have : dist va q ≤ dist vb q := WithTop.coe_le_coe.mp hk2
      exact sub_le_sub_left this 1
    exact (List.pairwise_map.mpr hpw).chain'

/-- Witness for C4: a three-record two-dimensional toy store searched with
k = 2. -/
theorem C4_search_top_k_descending_witness :
    ∃ chosen rest : List StoredRow,
      ([⟨1, "A", some [1, 0]⟩, ⟨2, "B", some [0, 1]⟩,
        ⟨3, "C", some [9/10, 1/10]⟩] : List StoredRow).Perm (chosen ++ rest) ∧
      similaritySearch
          (fun v w => ((v.zip w).map (fun p => (p.1 - p.2) * (p.1 - p.2))).sum)
          [1, 0] 2
          [⟨1, "A", some [1, 0]⟩, ⟨2, "B", some [0, 1]⟩, ⟨3, "C", some [9/10, 1/10]⟩]
        = Except.ok (chosen.map (rowResult
          (fun v w => ((v.zip w).map (fun p => (p.1 - p.2) * (p.1 - p.2))).sum) [1, 0])) ∧
      chosen.length = min 2 3 ∧
      (∀ r ∈ chosen, ∃ v, r.embedding = some v ∧
        (rowResult (fun v w => ((v.zip w).map (fun p => (p.1 - p.2) * (p.1 - p.2))).sum)
          [1, 0] r).2.2
          = some (1 - ((v.zip [1, 0]).map (fun p => (p.1 - p.2) * (p.1 - p.2))).sum)) ∧
      (∀ c ∈ chosen, ∀ r ∈ rest,
        orderKey (fun v w => ((v.zip w).map (fun p => (p.1 - p.2) * (p.1 - p.2))).sum)
            [1, 0] c
          ≤ orderKey (fun v w => ((v.zip w).map (fun p => (p.1 - p.2) * (p.1 - p.2))).sum)
            [1, 0] r) ∧
      List.Chain' (fun a b => ∀ x y, a.2.2 = some x → b.2.2 = some y → y ≤ x)
        (chosen.map (rowResult
          (fun v w => ((v.zip w).map (fun p => (p.1 - p.2) * (p.1 - p.2))).sum) [1, 0])) :=
  C4_search_top_k_descending
    (fun v w => ((v.zip w).map (fun p => (p.1 - p.2) * (p.1 - p.2))).sum)
    [1, 0] 2
    [⟨1, "A", some [1, 0]⟩, ⟨2, "B", some [0, 1]⟩, ⟨3, "C", some [9/10, 1/10]⟩]
    (by decide) (by decide)

/-- C5 counterexample: a store whose only record has no embedding at all —
zero searchable records — still returns that record (with NULL score) instead
of the empty sequence the claim demands. -/
theorem C5_counterexample_null_embedding_participates :
    similaritySearch (fun _ _ => 0) [(1 : ℚ)] 1 [⟨1, "A", none⟩]
      = Except.ok [(1, "A", none)] := rfl

/-- C5 amended: an empty store yields an empty result without error, and a
store whose present embeddings all match the query's dimensionality yields
`min k n` rows where `n` counts every record, NULL-embedding records included
(they participate, with NULL keys ordered last); but a present embedding of a
different dimensionality makes the search raise an error rather than return
an empty sequence. -/
theorem C5_amended_nulls_participate_and_mismatch_errors :
    (∀ (dist : List ℚ → List ℚ → ℚ) (q : List ℚ) (k : Nat),
      similaritySearch dist q k [] = Except.ok []) ∧
    (∀ (dist : List ℚ → List ℚ → ℚ) (q : List ℚ) (k : Nat) (rows : List StoredRow),
      rows.all (dimCompatible q) = false →
      similaritySearch dist q k rows = Except.error "different vector dimensions") ∧
    (∀ (dist : List ℚ → List ℚ → ℚ) (q : List ℚ) (k : Nat) (rows : List StoredRow),
      rows.all (dimCompatible q) = true →
      ∃ res, similaritySearch dist q k rows = Except.ok res ∧
        res.length = min k rows.length) := by
  refine ⟨fun dist q k => ?_, fun dist q k rows h => ?_, fun dist q k rows h => ?_⟩
  · rw [similaritySearch]
    simp [List.insertionSort]
  · rw [similaritySearch, if_neg (by simp [h])]
  · refine ⟨_, by rw [similaritySearch, if_pos h], ?_⟩
    rw [List.length_map, List.length_take,
      (List.perm_insertionSort (searchLE dist q) rows).length_eq]

/-- Witness for C5 amended: the dimension-mismatch error and the NULL-counting
result size at concrete stores. -/
theorem C5_amended_nulls_participate_and_mismatch_errors_witness :
    similaritySearch (fun _ _ => 0) [(1 : ℚ)] 1 [⟨1, "A", some [1, 2]⟩]
      = Except.error "different vector dimensions" ∧
    ∃ res, similaritySearch (fun _ _ => 0) [(1 : ℚ)] 3
        [⟨1, "A", some [2]⟩, ⟨2, "B", none⟩]
      = Except.ok res ∧ res.length = min 3 2 :=
  ⟨C5_amended_nulls_participate_and_mismatch_errors.2.1 _ _ _ _ (by decide),
   C5_amended_nulls_participate_and_mismatch_errors.2.2 _ _ _ _ (by decide)⟩

/-- C1 counterexample: two records, the embedding service failing only on the
second.  The first record's embedding call succeeds (second conjunct), and
run alone it would be updated (third conjunct); yet the run over both records
leaves the table exactly as before — the failure on record 2 both blocks
record 1's progress and undoes its already-executed write, because the whole
run is one transaction committed only at the end and rolled back by the
uncaught exception. -/
theorem C1_counterexample_failure_rolls_back_whole_run :
    reindexRun (fun t => if t = "b" then Except.error "503" else Except.ok [1])
        [⟨1, "a", none⟩, ⟨2, "b", none⟩]
      = [⟨1, "a", none⟩, ⟨2, "b", none⟩] ∧
    (fun t => if t = "b" then Except.error "503" else Except.ok [1]) "a"
      = Except.ok [1] ∧
    reindexRun (fun t => if t = "b" then Except.error "503" else Except.ok [1])
        [⟨1, "a", none⟩]
      = [⟨1, "a", some [1]⟩] :=
  ⟨by decide, rfl, by decide⟩

lemma reindexLoop_error_of_failure (embed : String → Except String (List ℚ))
    (rows : List DbRow)
    (hfail : ∃ r ∈ rows, r.moduleName ≠ "" ∧ ∃ e, embed r.moduleName = Except.error e) :
    ∃ e, (reindexLoop embed rows).1 = Except.error e := by
  induction rows with
  | nil => simp at hfail
  | cons r rs ih =>
    obtain ⟨s, hs, hsne, e, he⟩ := hfail
    by_cases hm : r.moduleName = ""
    · have hs2 : s ∈ rs := by
        rcases List.mem_cons.mp hs with rfl | hs2
        · exact absurd hm hsne
        · exact hs2
      obtain ⟨e2, he2⟩ := ih ⟨s, hs2, hsne, e, he⟩
      exact ⟨e2, by simp [reindexLoop, hm, he2, Except.map]⟩
    · cases hemb : embed r.moduleName with
      | error e3 => exact ⟨e3, by simp [reindexLoop, hm, hemb]⟩
      | ok v =>
        have hs2 : s ∈ rs := by
          rcases List.mem_cons.mp hs with rfl | hs2
          · rw [he] at hemb; exact Except.noConfusion hemb
          · exact hs2
        obtain ⟨e2, he2⟩ := ih ⟨s, hs2, hsne, e, he⟩
        exact ⟨e2, by simp [reindexLoop, hm, hemb, he2, Except.map]⟩

lemma reindexLoop_ok_of_success (embed : String → Except String (List ℚ))
    (rows : List DbRow)
    (hok : ∀ r ∈ rows, r.moduleName ≠ "" → ∃ v, embed r.moduleName = Except.ok v) :
    (reindexLoop embed rows).1 = Except.ok (rows.map (reindexUpdate embed)) := by
  induction rows with
  | nil => rfl
  | cons r rs ih =>
    have hrs : ∀ s ∈ rs, s.moduleName ≠ "" → ∃ v, embed s.moduleName = Except.ok v :=
      fun s hs => hok s (List.mem_cons_of_mem r hs)
    by_cases hm : r.moduleName = ""
    · simp [reindexLoop, hm, ih hrs, Except.map, reindexUpdate]
    · obtain ⟨v, hv⟩ := hok r (List.mem_cons_self r rs) hm
      simp [reindexLoop, hm, hv, ih hrs, Except.map, reindexUpdate]

/-- C1 amended: the reindex run is one transaction committed only after the
whole loop.  If the embedding service fails on any record with a nonempty
module name, the uncaught exception aborts the loop and psycopg rolls the
transaction back, leaving every record — including ones already successfully
re-embedded during the run — with its prior embedding; no record is ever
half-written.  Only a run with no embedding failure changes the table, and
then every record with a nonempty module name receives its new embedding. -/
theorem C1_amended_single_transaction_rollback
    (embed : String → Except String (List ℚ)) (rows : List DbRow) :
    ((∃ r ∈ rows, r.moduleName ≠ "" ∧ ∃ e, embed r.moduleName = Except.error e) →
      reindexRun embed rows = rows) ∧
    ((∀ r ∈ rows, r.moduleName ≠ "" → ∃ v, embed r.moduleName = Except.ok v) →
      reindexRun embed rows = rows.map (reindexUpdate embed)) := by
  constructor
  · intro hfail
    obtain ⟨e, he⟩ := reindexLoop_error_of_failure embed rows hfail
    rw [reindexRun, he]
  · intro hok
    rw [reindexRun, reindexLoop_ok_of_success embed rows hok]

/-- Witness for C1 amended: the rollback branch on a two-record table with a
failing second record, and the commit branch on a one-record table. -/
theorem C1_amended_single_transaction_rollback_witness :
    reindexRun (fun t => if t = "b" then Except.error "503" else Except.ok [1])
        [⟨1, "a", none⟩, ⟨2, "b", none⟩]
      = [⟨1, "a", none⟩, ⟨2, "b", none⟩] ∧
    reindexRun (fun _ => Except.ok [1]) [⟨1, "a", none⟩]
      = [⟨1, "a", none⟩].map (reindexUpdate (fun _ => Except.ok [1])) :=
  ⟨(C1_amended_single_transaction_rollback _ _).1
      ⟨⟨2, "b", none⟩, by decide, by decide, "503", rfl⟩,
   (C1_amended_single_transaction_rollback _ _).2
      (by
        intro r hr hne
        have hr2 : r = ⟨1, "a", none⟩ := by simpa using hr
        subst hr2
        exact ⟨[1], rfl⟩)⟩

/-- C2 counterexample: a record holding a 1536-dimensional scheme-1 vector
with declared scheme version 1; the code's UPDATE writes a 3072-dimensional
scheme-2 vector.  The read afterwards observes the scheme-2 embedding still
paired with version 1 — the code updates only the `embedding` column and no
scheme version with it (the spec-level paired update produces a different
store). -/
theorem C2_counterexample_stale_scheme_version :
    upsertEmbedding [⟨1, some (List.replicate 1536 0), some 1⟩] 1
        (List.replicate 3072 0)
      = [⟨1, some (List.replicate 3072 0), some 1⟩] ∧
    (∃ r ∈ upsertEmbedding [⟨1, some (List.replicate 1536 0), some 1⟩] 1
        (List.replicate 3072 0),
      ∃ v ver, r.embedding = some v ∧ r.embeddingSchemeVersion = some ver ∧
        v.length = dimOfScheme 2 ∧ v.length ≠ dimOfScheme ver) ∧
    upsertEmbeddingSpec [⟨1, some (List.replicate 1536 0), some 1⟩] 1
        (List.replicate 3072 0) 2
      ≠ upsertEmbedding [⟨1, some (List.replicate 1536 0), some 1⟩] 1
        (List.replicate 3072 0) := by
  refine ⟨rfl, ⟨⟨1, some (List.replicate 3072 0), some 1⟩, ?_,
    List.replicate 3072 0, 1, rfl, rfl, ?_, ?_⟩, ?_⟩
  · rw [show upsertEmbedding [⟨1, some (List.replicate 1536 0), some 1⟩] 1
        (List.replicate 3072 0)
      = [⟨1, some (List.replicate 3072 0), some 1⟩] from rfl]
    exact List.mem_singleton.mpr rfl
  · rw [List.length_replicate]
    rfl
  · rw [List.length_replicate]
    decide
  · intro h
    have h2 := congrArg
      (fun l => (l.headD ⟨0, none, none⟩).embeddingSchemeVersion) h
    have h3 : (some 2 : Option Nat) = some 1 := h2
    exact absurd (Option.some.inj h3) (by decide)

/-- C2 amended: the code's update is atomic on the single column it touches:
each row of the updated store is either an untouched row of the old store
(different id) or is exactly the old row with `embedding` replaced wholly by
the new vector and every other field — including any scheme version — left
unchanged; and the row with the target id, if present, is indeed so
replaced.  No `embeddingSchemeVersion` is replaced together with the vector. -/
theorem C2_amended_embedding_only_updated (rows : List VersionedRow) (i : Nat)
    (v : List ℚ) :
    (∀ r ∈ upsertEmbedding rows i v,
      (r.id ≠ i ∧ r ∈ rows) ∨
      (∃ r0 ∈ rows, r0.id = i ∧ r = { r0 with embedding := some v })) ∧
    (∀ r0 ∈ rows, r0.id = i →
      { r0 with embedding := some v } ∈ upsertEmbedding rows i v) := by
  constructor
  · intro r hr
    rw [upsertEmbedding] at hr
    obtain ⟨r0, hr0, hre⟩ := List.mem_map.mp hr
    by_cases hid : r0.id = i
    · right
      exact ⟨r0, hr0, hid, by rw [← hre, if_pos hid]⟩
    · left
      rw [if_neg hid] at hre
      exact ⟨hre ▸ hid, hre ▸ hr0⟩
  · intro r0 hr0 hid
    rw [upsertEmbedding]
    exact List.mem_map.mpr ⟨r0, hr0, by rw [if_pos hid]⟩

/-- Witness for C2 amended: a one-row store updated at its own id. -/
theorem C2_amended_embedding_only_updated_witness :
    ((⟨1, some [2], some 1⟩ : VersionedRow).id ≠ 1 ∧
      (⟨1, some [2], some 1⟩ : VersionedRow) ∈ [(⟨1, none, some 1⟩ : VersionedRow)]) ∨
    (∃ r0 ∈ [(⟨1, none, some 1⟩ : VersionedRow)], r0.id = 1 ∧
      (⟨1, some [2], some 1⟩ : VersionedRow) = { r0 with embedding := some [2] }) :=
  (C2_amended_embedding_only_updated [⟨1, none, some 1⟩] 1 [2]).1
    ⟨1, some [2], some 1⟩ (by decide)

/-- C8 counterexample: `create_embedding` has no input check at all — it
forwards the empty string and the whitespace-only string " " straight to the
embedding service (no `EmptyInputError` exists anywhere in the code), and the
reindex loop, which skips only records whose extracted text is exactly empty,
sends a whitespace-only module name to the service. -/
theorem C8_counterexample_no_empty_input_guard :
    (create_embedding (fun _ => [0]) "").2 = [""] ∧
    (create_embedding (fun _ => [0]) " ").2 = [" "] ∧
    reindexCalls (fun _ => Except.ok [0]) [⟨1, " ", none⟩] = [" "] :=
  ⟨rfl, rfl, rfl⟩

/-- C8 amended: `create_embedding` forwards every input, unvalidated, to the
embedding service; separately, the reindex loop never sends an exactly-empty
text (it skips those records, without raising any error), and every text it
sends is some record's module name — whitespace-only texts included. -/
theorem C8_amended_loop_skips_exactly_empty (service : String → List ℚ)
    (embed : String → Except String (List ℚ)) (rows : List DbRow) :
    (∀ text, (create_embedding service text).1 = service text ∧
      (create_embedding service text).2 = [text]) ∧
    (∀ t ∈ reindexCalls embed rows, t ≠ "" ∧ ∃ r ∈ rows, t = r.moduleName) := by
  refine ⟨fun text => ⟨rfl, rfl⟩, ?_⟩
  induction rows with
  | nil => intro t ht; simp [reindexCalls, reindexLoop] at ht
  | cons r rs ih =>
    intro t ht
    rw [reindexCalls, reindexLoop] at ht
    by_cases hm : r.moduleName = ""
    · rw [if_pos hm] at ht
      obtain ⟨hne, s, hs, hts⟩ := ih t ht
      exact ⟨hne, s, List.mem_cons_of_mem r hs, hts⟩
    · rw [if_neg hm] at ht
      cases hemb : embed r.moduleName with
      | error e =>
        rw [hemb] at ht
        have : t = r.moduleName := by simpa using ht
        exact ⟨this ▸ hm, r, List.mem_cons_self r rs, this⟩
      | ok v =>
        rw [hemb] at ht
        rcases List.mem_cons.mp ht with rfl | ht2
        · exact ⟨hm, r, List.mem_cons_self r rs, rfl⟩
        · obtain ⟨hne, s, hs, hts⟩ := ih t ht2
          exact ⟨hne, s, List.mem_cons_of_mem r hs, hts⟩

/-- Witness for C8 amended: the loop over a single record with module name
"x" sends exactly "x", which is nonempty and is that record's module name. -/
theorem C8_amended_loop_skips_exactly_empty_witness :
    (create_embedding (fun _ => [0]) "x").2 = ["x"] ∧
    ("x" ≠ "" ∧ ∃ r ∈ [(⟨1, "x", none⟩ : DbRow)], "x" = r.moduleName) :=
  ⟨((C8_amended_loop_skips_exactly_empty (fun _ => [0])
      (fun _ => Except.ok [0]) [⟨1, "x", none⟩]).1 "x").2,
   (C8_amended_loop_skips_exactly_empty (fun _ => [0])
      (fun _ => Except.ok [0]) [⟨1, "x", none⟩]).2 "x" (by decide)⟩

end StoryboardPipeline
